import Mathlib

/-
Formal model of the turtlewatch TOTAL indicator pipeline:
  scripts/update_total_indicator_2025.py  (indicator update + forecast)
  scripts/control_total_data_2025.py      (staleness orchestrator)

Modelling conventions, chosen to stay faithful to the Python source:

* A month string "YYYY-MM" is embedded as the absolute month number
  ym y m = 12 * y + (m - 1).  Lexicographic comparison of "YYYY-MM"
  strings (used by the source at `df["dateyrmo"] <= latest_erddap_yrmo`)
  agrees with ≤ on these numbers, and advancing to the next calendar
  month (`last_month + relativedelta(months=1)`) is + 1.

* Python floats are idealised as exact rationals, and the float NaN
  (which np.ma.filled introduces for masked grid cells) as Option.none.
  pandas mean skips NaN (skipna=True default), which is skipnaMean below;
  a plain numpy ndarray mean does not skip NaN, which is gridMeanCode.

* round(x, 2) is embedded as rational rounding to the nearest hundredth
  with ties to even, round2 below (Python round() is correctly rounded
  on the double and sends ties to even); round2o is its lift to Option
  (NaN in, NaN out, as in Python).  When the exact value sits precisely
  on a rounding tie, the binary double representation of the program
  value (not the tie rule) decides the stored digit, so every theorem
  asserting a stored rounded value excludes exact ties; away from ties
  the rational idealisation is exact, since window means of two-decimal
  anomalies have denominator at most 600 and a double of such a value is
  far closer to it than to any rounding midpoint.

* pandas sort_values on the month key is embedded as insertionSort on
  the month field.  In every situation the source sorts, month keys are
  distinct, so any sorting algorithm produces the same list.

* Rows of loggerhead_indx.csv are embedded as Row: the month key
  `dateyrmo`, the `anom` column and the `indicator` column.  The two
  redundant US-style date columns and the constant window/flag columns
  carry no information and are omitted.
-/

/-- Absolute month number for the month string "YYYY-MM". -/
def ym (y m : ℕ) : ℕ := 12 * y + (m - 1)

/-- Embedding of the Python round(x, 2): round to the nearest hundredth,
ties to even (the rule Python round() applies to the double). -/
def round2 (x : ℚ) : ℚ :=
  let y := 100 * x
  let n : ℤ :=
    if Int.fract y = 1 / 2 then (if ⌊y⌋ % 2 = 0 then ⌊y⌋ else ⌊y⌋ + 1)
    else ⌊y + 1 / 2⌋
  (n : ℚ) / 100

/-- round(x, 2) lifted to Option: round(nan, 2) is nan. -/
def round2o : Option ℚ → Option ℚ := Option.map round2

/-- Arithmetic mean of a list of rationals (sum / length). -/
def listMean (l : List ℚ) : ℚ := l.sum / (l.length : ℚ)

/-- pandas Series.mean with its default skipna=True: the mean of the
non-NaN entries, NaN (none) when every entry is NaN or the list is empty. -/
def skipnaMean (l : List (Option ℚ)) : Option ℚ :=
  if l.reduceOption = [] then none else some (listMean l.reduceOption)

/-- The last n elements of a list: pandas .tail(n) and the slice [-n:]. -/
def lastN (n : ℕ) (l : List α) : List α := l.drop (l.length - n)

/-- One row of the persisted indicator series loggerhead_indx.csv:
month key `dateyrmo`, `anom` and `indicator` (NaN embedded as none). -/
structure Row where
  month : ℕ
  anom : Option ℚ
  indicator : Option ℚ
deriving DecidableEq

/-- The regional subgrid of the remote sstAnom field for one month;
masked (missing) cells are none. -/
abbrev Grid := List (List (Option ℚ))

/-- Comparison of rows by their month key, the sort key the source uses
in every df.sort_values call. -/
def byMonth (a b : Row) : Prop := a.month ≤ b.month

instance : DecidableRel byMonth := fun a b => Nat.decLe a.month b.month

instance : IsTotal Row byMonth := ⟨fun a b => Nat.le_total a.month b.month⟩

instance : IsTrans Row byMonth := ⟨fun _ _ _ h1 h2 => Nat.le_trans h1 h2⟩

instance : IsTrans (ℕ × ℚ) (fun p q => p.1 < q.1) :=
  ⟨fun _ _ _ h1 h2 => Nat.lt_trans h1 h2⟩

/-- df.sort_values(by=["dateyrmo"], ignore_index=True). -/
def sortRows (l : List Row) : List Row := l.insertionSort byMonth

/-- Embedding of `np.ma.filled(anom_data, np.nan).mean()` in
process_missing_data: filling masked cells with NaN and taking a plain
ndarray mean yields NaN as soon as one cell is masked (and on an empty
region); otherwise the mean of all cells. -/
def gridMeanCode (g : Grid) : Option ℚ :=
  let cells := g.flatten
  if cells.all Option.isSome ∧ cells ≠ [] then some (listMean cells.reduceOption)
  else none

/-- Modelled from the spec: `compute_anomaly` as §4.4 words it — the
arithmetic mean of all in-bounds grid cells, ignoring (not counting)
missing cells, undefined (none) only when the whole region is masked.
Stated only to compare with gridMeanCode, the mean the source computes. -/
def gridMeanSpec (g : Grid) : Option ℚ :=
  let vals := g.flatten.reduceOption
  if vals = [] then none else some (listMean vals)

/-- max(erddap_dates_str_set): the newest remote month. -/
def latestMonth (l : List ℕ) : ℕ := l.foldl max 0

/-- get_missing_dates: sorted(list(set(erddap_dates) - set(df.dateyrmo))),
the ascending set difference of remote months minus local months. -/
def get_missing_dates (df : List Row) (erddapDates : List ℕ) : List ℕ :=
  ((erddapDates.dedup).filter (fun m => m ∉ df.map Row.month)).insertionSort (· ≤ ·)

/-- The loop body of process_missing_data for one missing month m.  The
state is the DataFrame plus a counter of sstAnom grid reads.  When m is
not on the remote time axis, `.index` raises ValueError and the month is
logged and skipped; otherwise the regional grid is read, the new anomaly
is the plain mean of the filled grid, the new indicator is the skipna
mean of the last 6 anom values (the existing column plus the new
anomaly), the new row is appended and the frame re-sorted by month. -/
def processStep (grids : ℕ → Grid) (remote : List ℕ) (st : List Row × ℕ) (m : ℕ) :
    List Row × ℕ :=
  if m ∈ remote then
    let df := st.1
    let a := gridMeanCode (grids m)
    let ind := round2o (skipnaMean (lastN 6 (df.map Row.anom ++ [a])))
    (sortRows (df ++ [⟨m, round2o a, ind⟩]), st.2 + 1)
  else st

/-- process_missing_data: fold processStep over the missing months in
order, starting from the observed DataFrame; also counts grid reads. -/
def process_missing_data (grids : ℕ → Grid) (remote : List ℕ)
    (df : List Row) (missing : List ℕ) : List Row × ℕ :=
  missing.foldl (processStep grids remote) (df, 0)

/-- The forecast block of main: advance the last month of the series by
one calendar month, store the placeholder anomaly 0, and store as the
indicator the rounded skipna mean of the last 6 anom values of the
series as it stands (the placeholder itself is not part of the window).
On an empty frame `df["dateyrmo"].iloc[-1]` would raise, so the series
is returned unchanged (runStageCount never reaches that case). -/
def appendForecast (df : List Row) : List Row :=
  match df.getLast? with
  | none => df
  | some r =>
    df ++ [⟨r.month + 1, some 0, round2o (skipnaMean (lastN 6 (df.map Row.anom)))⟩]

/-- main of update_total_indicator_2025.py from the loaded series to the
saved series, given the remote month axis and the regional anomaly grid
of each remote month.  Returns the saved series and the number of
sstAnom grid reads.  Steps, in source order: load re-sorts by month
(rows whose month fails to parse are dropped at load, which the Row type
makes vacuous); missing months are resolved against the loaded frame;
rows beyond the newest remote month (the previous forecast row) are
dropped and the frame re-sorted; each missing month is processed; the
forecast row is appended; the final cleanup (which only removes rows
without a valid month key) re-sorts by month and the frame is saved. -/
def runStageCount (grids : ℕ → Grid) (remote : List ℕ) (s : List Row) :
    List Row × ℕ :=
  let df0 := sortRows s
  let latest := latestMonth remote
  let missing := get_missing_dates df0 remote
  let df1 := sortRows (df0.filter (fun r => r.month ≤ latest))
  let pr := process_missing_data grids remote df1 missing
  (sortRows (appendForecast pr.1), pr.2)

/-- The saved series of one run of the indicator-update stage. -/
def runStage (grids : ℕ → Grid) (remote : List ℕ) (s : List Row) : List Row :=
  (runStageCount grids remote s).1

/-- The alert line shared by both scripts:
"Alert" if latest_index >= 0.77 else "No Alert". -/
def alertStatus (x : ℚ) : String := if 77 / 100 ≤ x then "Alert" else "No Alert"

/-- Orchestrator: needs_observed_update = latest_total_date < latest_erddap_date. -/
def needs_observed_update (localLatest remoteLatest : ℕ) : Bool :=
  localLatest < remoteLatest

/-- Orchestrator: the indicator-update script runs when observed data is
behind the remote dataset or the forecast row is missing. -/
def invoke_indicator_stage (localLatest remoteLatest : ℕ) (hasForecast : Bool) :
    Bool :=
  needs_observed_update localLatest remoteLatest || !hasForecast

/-- Orchestrator: the map stage runs when latest_map_date < latest_erddap_date. -/
def needs_map_update (latestMap remoteLatest : ℕ) : Bool :=
  latestMap < remoteLatest

/-- split_observed_and_forecast, observed half: rows whose month is at
most the newest remote month, sorted ascending. -/
def observedRows (df : List Row) (latestRemote : ℕ) : List Row :=
  sortRows (df.filter (fun r => r.month ≤ latestRemote))

/-- split_observed_and_forecast, forecast half: rows whose month is
beyond the newest remote month, sorted ascending. -/
def forecastRows (df : List Row) (latestRemote : ℕ) : List Row :=
  sortRows (df.filter (fun r => latestRemote < r.month))

/-- datetime.min, the sentinel the orchestrator probes return for absent
or corrupt local state; every real month number is positive. -/
def dtMin : ℕ := 0

/-- has_valid_forecast_row: reading the CSV may raise (none input), in
which case the answer is False; otherwise True iff a forecast row exists. -/
def has_valid_forecast_row (load : Option (List Row)) (latestRemote : ℕ) : Bool :=
  match load with
  | none => false
  | some df => !(forecastRows df latestRemote).isEmpty

/-- get_latest_indicator_date: the newest observed month of the local
CSV.  A read/parse failure or a missing dateyrmo column is the none
input; an empty frame or a frame with no observed rows likewise falls
back to datetime.min rather than raising. -/
def get_latest_indicator_date (load : Option (List Row)) (latestRemote : ℕ) : ℕ :=
  match load with
  | none => dtMin
  | some df =>
    match (observedRows df latestRemote).getLast? with
    | none => dtMin
    | some r => r.month

/-- find_latest_file_date over the directory listing already filtered to
the expected artifact name pattern: each entry is (mtime, month parsed
from the filename).  A listing failure is the none input; none and the
empty listing both return datetime.min instead of raising.  max with the
mtime key returns the first entry of maximal mtime. -/
def find_latest_file_date (listing : Option (List (ℕ × ℕ))) : ℕ :=
  match listing with
  | none => dtMin
  | some [] => dtMin
  | some (f :: rest) =>
    (rest.foldl (fun best g => if best.1 < g.1 then g else best) f).2

/-- Outcome of one netCDF4.Dataset open attempt in get_data_from_erddap:
success, an OSError/IOError (transient, retried), or any other exception
(fatal, never retried). -/
inductive NetOutcome where
  | success : NetOutcome
  | transient : NetOutcome
  | fatal : NetOutcome
deriving DecidableEq

/-- How the retry loop ends: the dataset is open, or sys.exit(1). -/
inductive RunResult where
  | ok : RunResult
  | exit1 : RunResult
deriving DecidableEq

/-- The retry loop of get_data_from_erddap from a given attempt number
with a given number of attempts still allowed after the current one.
Returns the end state, the number of the last attempt made, and the list
of sleeps performed between attempts. -/
def retryAux (f : ℕ → NetOutcome) (backoff : ℕ) :
    ℕ → ℕ → RunResult × ℕ × List ℕ
  | attempt, fuel =>
    match f attempt with
    | NetOutcome.success => (RunResult.ok, attempt, [])
    | NetOutcome.fatal => (RunResult.exit1, attempt, [])
    | NetOutcome.transient =>
      match fuel with
      | 0 => (RunResult.exit1, attempt, [])
      | fuel' + 1 =>
        let r := retryAux f backoff (attempt + 1) fuel'
        (r.1, r.2.1, backoff * attempt :: r.2.2)

/-- get_data_from_erddap(dataset, retries, backoff_seconds) given the
outcome of each attempt: attempts run from 1 to retries; an OSError on a
non-final attempt sleeps backoff_seconds * attempt and retries; an
OSError on the final attempt and any non-IO error sys.exit(1). -/
def get_data_from_erddap (f : ℕ → NetOutcome) (retries backoff : ℕ) :
    RunResult × ℕ × List ℕ :=
  retryAux f backoff 1 (retries - 1)

/-- Reference unfolding of the per-month loop of process_missing_data
over an initial anomaly column prev: the row appended for each month
stores the rounded month anomaly, and an indicator computed from the
trailing 6 entries of the anomaly column as it stands when that month is
processed (the fresh anomaly unrounded, the stored ones rounded).  Used
only to relate the fold in process_missing_data to a direct recursion. -/
def chronAux (prev : List (Option ℚ)) : List (ℕ × ℚ) → List Row
  | [] => []
  | (m, a) :: rest =>
    ⟨m, some (round2 a), round2o (skipnaMean (lastN 6 (prev ++ [some a])))⟩ ::
      chronAux (prev ++ [some (round2 a)]) rest

/-! Helper lemmas about the list machinery shared by several claims. -/

lemma reduceOption_map_some (l : List ℚ) : (l.map some).reduceOption = l := by
  induction l with
  | nil => rfl
  | cons a t ih => simpa [List.reduceOption_cons_of_some] using ih

lemma skipnaMean_map_some (l : List ℚ) (h : l ≠ []) :
    skipnaMean (l.map some) = some (listMean l) := by
  simp [skipnaMean, reduceOption_map_some, h]

lemma lastN_map (f : α → β) (n : ℕ) (l : List α) :
    lastN n (l.map f) = (lastN n l).map f := by
  simp [lastN, List.map_drop]

lemma lastN_ne_nil (n : ℕ) (hn : 0 < n) (l : List α) (h : l ≠ []) :
    lastN n l ≠ [] := by
  have hlen : 0 < l.length := List.length_pos.mpr h
  have : l.length - n < l.length := by omega
  simp only [lastN, ne_eq, List.drop_eq_nil_iff]
  omega

lemma sortRows_sorted (l : List Row) : (sortRows l).Sorted byMonth :=
  List.sorted_insertionSort byMonth l

lemma sortRows_eq_of_sorted {l : List Row} (h : l.Sorted byMonth) :
    sortRows l = l :=
  List.Sorted.insertionSort_eq h

lemma sortRows_perm (l : List Row) : List.Perm (sortRows l) l :=
  List.perm_insertionSort byMonth l

lemma mem_sortRows {r : Row} {l : List Row} : r ∈ sortRows l ↔ r ∈ l :=
  (sortRows_perm l).mem_iff

lemma month_mem_sortRows {m : ℕ} {l : List Row} :
    m ∈ (sortRows l).map Row.month ↔ m ∈ l.map Row.month :=
  ((sortRows_perm l).map Row.month).mem_iff

lemma sorted_getLast_max {l : List Row} (hs : l.Sorted byMonth) (hne : l ≠ []) :
    ∀ r ∈ l, r.month ≤ (l.getLast hne).month := by
  induction l with
  | nil => exact absurd rfl hne
  | cons a t ih =>
    intro r hr
    cases t with
    | nil =>
      rcases List.mem_singleton.mp hr with h
      subst h
      exact Nat.le_refl _
    | cons b t2 =>
      have hrel := (List.sorted_cons.mp hs).1
      have hs2 := (List.sorted_cons.mp hs).2
      have hgl : (a :: b :: t2).getLast hne = (b :: t2).getLast (by simp) :=
        List.getLast_cons (by simp)
      rcases List.mem_cons.mp hr with h1 | hr2
      · subst h1
        rw [hgl]
        exact hrel _ (List.getLast_mem _)
      · rw [hgl]
        exact ih hs2 (by simp) r hr2

lemma foldl_max_init_le : ∀ (l : List ℕ) (a : ℕ), a ≤ l.foldl max a := by
  intro l
  induction l with
  | nil => exact fun a => Nat.le_refl a
  | cons b t ih =>
    intro a
    exact le_trans (Nat.le_max_left a b) (ih (max a b))

lemma le_latestMonth : ∀ (l : List ℕ) (m : ℕ), m ∈ l → m ≤ latestMonth l := by
  have aux : ∀ (l : List ℕ) (a m : ℕ), m ∈ l → m ≤ l.foldl max a := by
    intro l
    induction l with
    | nil => intro a m h; cases h
    | cons b t ih =>
      intro a m h
      rcases List.mem_cons.mp h with h1 | h2
      · subst h1
        exact le_trans (Nat.le_max_right a m) (foldl_max_init_le t (max a m))
      · exact ih (max a b) m h2
  exact fun l m h => aux l 0 m h

lemma latestMonth_mem : ∀ (l : List ℕ), l ≠ [] → latestMonth l ∈ l := by
  have aux : ∀ (t : List ℕ) (a : ℕ), t.foldl max a = a ∨ t.foldl max a ∈ t := by
    intro t
    induction t with
    | nil => exact fun a => Or.inl rfl
    | cons b t2 ih =>
      intro a
      rcases ih (max a b) with h1 | h2
      · rcases max_choice a b with hm | hm
        · exact Or.inl (by rw [List.foldl_cons, h1, hm])
        · exact Or.inr (by rw [List.foldl_cons, h1, hm]; exact List.mem_cons_self b t2)
      · exact Or.inr (by rw [List.foldl_cons]; exact List.mem_cons_of_mem b h2)
  intro l hl
  cases l with
  | nil => exact absurd rfl hl
  | cons a t =>
    have h0 : latestMonth (a :: t) = t.foldl max a := by
      simp [latestMonth]
    rcases aux t a with h1 | h2
    · rw [h0, h1]; exact List.mem_cons_self a t
    · rw [h0]; exact List.mem_cons_of_mem a h2

/-! The retry loop of the Remote Data Gateway. -/

lemma retryAux_spec (f : ℕ → NetOutcome) (backoff : ℕ) :
    ∀ (fuel attempt : ℕ),
      (attempt ≤ (retryAux f backoff attempt fuel).2.1 ∧
       (retryAux f backoff attempt fuel).2.1 ≤ attempt + fuel) ∧
      (retryAux f backoff attempt fuel).2.2 =
        (List.range' attempt ((retryAux f backoff attempt fuel).2.1 - attempt)).map
          (fun i => backoff * i) ∧
      (∀ i, attempt ≤ i → i < (retryAux f backoff attempt fuel).2.1 →
        f i = NetOutcome.transient) ∧
      ((retryAux f backoff attempt fuel).1 = RunResult.ok ↔
        f ((retryAux f backoff attempt fuel).2.1) = NetOutcome.success) ∧
      ((∀ i, attempt ≤ i → i ≤ attempt + fuel → f i = NetOutcome.transient) →
        (retryAux f backoff attempt fuel).1 = RunResult.exit1 ∧
        (retryAux f backoff attempt fuel).2.1 = attempt + fuel) := by
  intro fuel
  induction fuel with
  | zero =>
    intro attempt
    cases h : f attempt with
    | success =>
      have hr : retryAux f backoff attempt 0 = (RunResult.ok, attempt, []) := by
        simp [retryAux, h]
      rw [hr]
      dsimp only
      refine ⟨⟨Nat.le_refl _, by omega⟩, by simp, ?_, by simp [h], ?_⟩
      · intro i h1 h2; omega
      · intro hall
        have hc := hall attempt (Nat.le_refl _) (by omega)
        simp [h] at hc
    | transient =>
      have hr : retryAux f backoff attempt 0 = (RunResult.exit1, attempt, []) := by
        simp [retryAux, h]
      rw [hr]
      dsimp only
      refine ⟨⟨Nat.le_refl _, by omega⟩, by simp, ?_, by simp [h], ?_⟩
      · intro i h1 h2; omega
      · intro _; exact ⟨rfl, by omega⟩
    | fatal =>
      have hr : retryAux f backoff attempt 0 = (RunResult.exit1, attempt, []) := by
        simp [retryAux, h]
      rw [hr]
      dsimp only
      refine ⟨⟨Nat.le_refl _, by omega⟩, by simp, ?_, by simp [h], ?_⟩
      · intro i h1 h2; omega
      · intro _; exact ⟨rfl, by omega⟩
  | succ fuel' ih =>
    intro attempt
    cases h : f attempt with
    | success =>
      have hr : retryAux f backoff attempt (fuel' + 1) = (RunResult.ok, attempt, []) := by
        simp [retryAux, h]
      rw [hr]
      dsimp only
      refine ⟨⟨Nat.le_refl _, by omega⟩, by simp, ?_, by simp [h], ?_⟩
      · intro i h1 h2; omega
      · intro hall
        have hc := hall attempt (Nat.le_refl _) (by omega)
        simp [h] at hc
    | fatal =>
      have hr : retryAux f backoff attempt (fuel' + 1) = (RunResult.exit1, attempt, []) := by
        simp [retryAux, h]
      rw [hr]
      dsimp only
      refine ⟨⟨Nat.le_refl _, by omega⟩, by simp, ?_, by simp [h], ?_⟩
      · intro i h1 h2; omega
      · intro hall
        have hc := hall attempt (Nat.le_refl _) (by omega)
        simp [h] at hc
    | transient =>
      have hr : retryAux f backoff attempt (fuel' + 1) =
          ((retryAux f backoff (attempt + 1) fuel').1,
           (retryAux f backoff (attempt + 1) fuel').2.1,
           backoff * attempt :: (retryAux f backoff (attempt + 1) fuel').2.2) := by
        simp [retryAux, h]
      obtain ⟨⟨hb1, hb2⟩, hsl, htr, hok, hfin⟩ := ih (attempt + 1)
      rw [hr]
      dsimp only
      refine ⟨⟨by omega, by omega⟩, ?_, ?_, hok, ?_⟩
      · have he : (retryAux f backoff (attempt + 1) fuel').2.1 - attempt =
            ((retryAux f backoff (attempt + 1) fuel').2.1 - (attempt + 1)) + 1 := by
          omega
        rw [he, List.range'_succ, List.map_cons, hsl]
      · intro i h1 h2
        rcases Nat.eq_or_lt_of_le h1 with hle | hlt
        · rw [← hle]; exact h
        · exact htr i (by omega) h2
      · intro hall
        obtain ⟨h1, h2⟩ := hfin (fun i hi1 hi2 => hall i (by omega) (by omega))
        exact ⟨h1, by omega⟩

/-- Claim C8: the remote open is attempted at most `retries` times
(default 5); between attempt i and attempt i + 1 the loop sleeps exactly
backoff * i (linear, no jitter); every non-final attempt that is
followed by another one failed with a transient OSError; the run ends
open (ok) iff the last attempt succeeded; a fatal (non-IO) error on the
first attempt terminates at once with exit 1, no sleeps; and when every
attempt is transient the process terminates with a non-zero status after
exactly `retries` attempts. -/
theorem c8_gateway_retry_policy (f : ℕ → NetOutcome) (retries backoff : ℕ)
    (hret : 1 ≤ retries) :
    (1 ≤ (get_data_from_erddap f retries backoff).2.1 ∧
     (get_data_from_erddap f retries backoff).2.1 ≤ retries) ∧
    (get_data_from_erddap f retries backoff).2.2 =
      (List.range' 1 ((get_data_from_erddap f retries backoff).2.1 - 1)).map
        (fun i => backoff * i) ∧
    (∀ i, 1 ≤ i → i < (get_data_from_erddap f retries backoff).2.1 →
      f i = NetOutcome.transient) ∧
    ((get_data_from_erddap f retries backoff).1 = RunResult.ok ↔
      f ((get_data_from_erddap f retries backoff).2.1) = NetOutcome.success) ∧
    (f 1 = NetOutcome.fatal →
      get_data_from_erddap f retries backoff = (RunResult.exit1, 1, [])) ∧
    ((∀ i, 1 ≤ i → i ≤ retries → f i = NetOutcome.transient) →
      (get_data_from_erddap f retries backoff).1 = RunResult.exit1 ∧
      (get_data_from_erddap f retries backoff).2.1 = retries) := by
  have hsum : 1 + (retries - 1) = retries := by omega
  obtain ⟨⟨hb1, hb2⟩, hsl, htr, hok, hfin⟩ := retryAux_spec f backoff (retries - 1) 1
  unfold get_data_from_erddap
  refine ⟨⟨hb1, by omega⟩, hsl, htr, hok, ?_, ?_⟩
  · intro hf
    cases hfu : retries - 1 with
    | zero => simp [retryAux, hf]
    | succ n => simp [retryAux, hf]
  · intro hall
    obtain ⟨h1, h2⟩ := hfin (fun i hi1 hi2 => hall i hi1 (by omega))
    exact ⟨h1, by omega⟩

/-- Closed witness for C8 at the default configuration retries = 5,
backoff_seconds = 20, with every attempt failing transiently. -/
theorem c8_gateway_retry_policy_witness :
    (1 ≤ (get_data_from_erddap (fun _ => NetOutcome.transient) 5 20).2.1 ∧
     (get_data_from_erddap (fun _ => NetOutcome.transient) 5 20).2.1 ≤ 5) ∧
    (get_data_from_erddap (fun _ => NetOutcome.transient) 5 20).2.2 =
      (List.range' 1 ((get_data_from_erddap (fun _ => NetOutcome.transient) 5 20).2.1 - 1)).map
        (fun i => 20 * i) ∧
    (∀ i, 1 ≤ i → i < (get_data_from_erddap (fun _ => NetOutcome.transient) 5 20).2.1 →
      (fun _ : ℕ => NetOutcome.transient) i = NetOutcome.transient) ∧
    ((get_data_from_erddap (fun _ => NetOutcome.transient) 5 20).1 = RunResult.ok ↔
      (fun _ : ℕ => NetOutcome.transient)
        ((get_data_from_erddap (fun _ => NetOutcome.transient) 5 20).2.1) = NetOutcome.success) ∧
    ((fun _ : ℕ => NetOutcome.transient) 1 = NetOutcome.fatal →
      get_data_from_erddap (fun _ => NetOutcome.transient) 5 20 = (RunResult.exit1, 1, [])) ∧
    ((∀ i, 1 ≤ i → i ≤ 5 → (fun _ : ℕ => NetOutcome.transient) i = NetOutcome.transient) →
      (get_data_from_erddap (fun _ => NetOutcome.transient) 5 20).1 = RunResult.exit1 ∧
      (get_data_from_erddap (fun _ => NetOutcome.transient) 5 20).2.1 = 5) :=
  c8_gateway_retry_policy (fun _ => NetOutcome.transient) 5 20 (by decide)

/-- Claim C6: for every indicator value, the dashboard alert is "Alert"
iff the indicator is at least 0.77, else "No Alert"; the boundary is
inclusive: 0.76999 gives "No Alert" and 0.77 gives "Alert". -/
theorem c6_alert_threshold :
    (∀ x : ℚ, alertStatus x = "Alert" ↔ 77 / 100 ≤ x) ∧
    alertStatus (76999 / 100000) = "No Alert" ∧
    alertStatus (77 / 100) = "Alert" := by
  refine ⟨fun x => ?_, ?_, ?_⟩
  · unfold alertStatus
    by_cases h : (77 : ℚ) / 100 ≤ x
    · rw [if_pos h]
      exact ⟨fun _ => h, fun _ => rfl⟩
    · rw [if_neg h]
      exact ⟨fun hc => absurd hc (by decide), fun hc => absurd hc h⟩
  · unfold alertStatus
    rw [if_neg (by norm_num)]
  · unfold alertStatus
    rw [if_pos (by norm_num)]

/-- Claim C7: the missing-month resolver returns exactly the set
difference of remote months minus local months, in ascending order
without duplicates (an empty list being a valid result), and on remote
months 2025-01..2025-03 with local month 2025-01 it returns
[2025-02, 2025-03]. -/
theorem c7_missing_month_resolution :
    (∀ (df : List Row) (remote : List ℕ) (m : ℕ),
      m ∈ get_missing_dates df remote ↔ m ∈ remote ∧ m ∉ df.map Row.month) ∧
    (∀ (df : List Row) (remote : List ℕ),
      (get_missing_dates df remote).Sorted (· ≤ ·) ∧
      (get_missing_dates df remote).Nodup) ∧
    get_missing_dates [⟨ym 2025 1, some 0, some 0⟩]
      [ym 2025 1, ym 2025 2, ym 2025 3] = [ym 2025 2, ym 2025 3] := by
  refine ⟨fun df remote m => ?_, fun df remote => ⟨?_, ?_⟩, ?_⟩
  · unfold get_missing_dates
    rw [(List.perm_insertionSort _ _).mem_iff, List.mem_filter, List.mem_dedup]
    simp
  · exact List.sorted_insertionSort _ _
  · exact ((List.perm_insertionSort _ _).nodup_iff).mpr
      ((List.nodup_dedup remote).filter _)
  · decide

/-- Claim C10: the orchestrator date probes return datetime.min (dtMin)
instead of raising when the local indicator CSV is missing/unreadable
(none), empty, or has no observed rows, and when no map artifact matches
the expected name pattern (none or empty listing); a dtMin probe result
classifies the local state as maximally stale, so any real remote month
triggers the indicator-update and map stages instead of aborting. -/
theorem c10_stale_probes (latestRemote rRemote : ℕ) (df : List Row)
    (hdf : ∀ r ∈ df, latestRemote < r.month) (hR : dtMin < rRemote)
    (hasFc : Bool) :
    get_latest_indicator_date none latestRemote = dtMin ∧
    get_latest_indicator_date (some []) latestRemote = dtMin ∧
    get_latest_indicator_date (some df) latestRemote = dtMin ∧
    find_latest_file_date none = dtMin ∧
    find_latest_file_date (some []) = dtMin ∧
    needs_observed_update dtMin rRemote = true ∧
    invoke_indicator_stage dtMin rRemote hasFc = true ∧
    needs_map_update dtMin rRemote = true := by
  refine ⟨rfl, by simp [get_latest_indicator_date, observedRows, sortRows,
    List.insertionSort], ?_, rfl, rfl, ?_, ?_, ?_⟩
  · have hfil : df.filter (fun r => decide (r.month ≤ latestRemote)) = [] := by
      rw [List.filter_eq_nil_iff]
      intro r hr
      simpa using Nat.not_le.mpr (hdf r hr)
    simp [get_latest_indicator_date, observedRows, hfil, sortRows,
      List.insertionSort]
  · simpa [needs_observed_update] using hR
  · simp [invoke_indicator_stage, needs_observed_update, hR]
  · simpa [needs_map_update] using hR

/-- Closed witness for C10: a CSV whose only row is beyond the remote
latest month (no observed rows) probes as dtMin, and a remote month of
2025-09 then triggers both stages. -/
theorem c10_stale_probes_witness :
    get_latest_indicator_date none (ym 2025 8) = dtMin ∧
    get_latest_indicator_date (some []) (ym 2025 8) = dtMin ∧
    get_latest_indicator_date (some [⟨ym 2025 9, some 0, some 0⟩]) (ym 2025 8) = dtMin ∧
    find_latest_file_date none = dtMin ∧
    find_latest_file_date (some []) = dtMin ∧
    needs_observed_update dtMin (ym 2025 9) = true ∧
    invoke_indicator_stage dtMin (ym 2025 9) false = true ∧
    needs_map_update dtMin (ym 2025 9) = true :=
  c10_stale_probes (ym 2025 8) (ym 2025 9) [⟨ym 2025 9, some 0, some 0⟩]
    (by decide) (by decide) false

/-- Claim C4 (the code contradicts it): np.ma.filled(anom, nan).mean()
is a plain ndarray mean over the filled grid, so one masked cell already
makes the monthly anomaly NaN instead of the mean of the defined cells
(the spec asks for 2 on the partially masked grid below), and a wholly
undefined month is not skipped: process_missing_data still appends a row
for it, with NaN anomaly and NaN indicator, and continues. -/
theorem c4_anomaly_mean_bug :
    gridMeanCode [[some 1, none], [some 2, some 3]] = none ∧
    gridMeanSpec [[some 1, none], [some 2, some 3]] = some 2 ∧
    gridMeanCode [[none, none]] = none ∧
    (process_missing_data (fun _ => [[none, none]]) [5] [] [5]).1 =
      [⟨5, none, none⟩] := by
  refine ⟨?_, ?_, ?_, ?_⟩
  · simp [gridMeanCode]
  · simp [gridMeanSpec, listMean]
    norm_num
  · simp [gridMeanCode]
  · simp [process_missing_data, processStep, gridMeanCode, skipnaMean,
      lastN, round2o, sortRows, List.insertionSort]

/-- Claim C5 (amended): for a series of observed records whose anomalies
are the rationals `as`, the forecast block appends exactly one row,
leaving the series before it unchanged; the new month is the calendar
month immediately after the last observed month; its anomaly is the
placeholder 0; and its indicator is the trailing-6 mean of the observed
anomalies — the placeholder excluded from its own window — rounded to
two decimals (the rounding is what the claim as stated omits).  The
window mean is required not to sit exactly on a rounding tie: there the
binary double representation, not the rounding rule, decides the digit
the program stores, and the rational idealisation makes no prediction. -/
theorem c5_forecast_row_semantics (df : List Row) (as : List ℚ)
    (hanom : df.map Row.anom = as.map some) (hne : df ≠ [])
    (htie : Int.fract (100 * listMean (lastN 6 as)) ≠ 1 / 2) :
    (appendForecast df).dropLast = df ∧
    (appendForecast df).getLast? =
      some ⟨(df.getLast hne).month + 1, some 0,
        some (round2 (listMean (lastN 6 as)))⟩ := by
  have hasne : as ≠ [] := by
    intro h
    subst h
    simp only [List.map_nil, List.map_eq_nil_iff] at hanom
    exact hne hanom
  have hlast : df.getLast? = some (df.getLast hne) := List.getLast?_eq_getLast df hne
  have hind : round2o (skipnaMean (lastN 6 (df.map Row.anom))) =
      some (round2 (listMean (lastN 6 as))) := by
    rw [hanom, lastN_map, skipnaMean_map_some _ (lastN_ne_nil 6 (by omega) as hasne)]
    rfl
  unfold appendForecast
  rw [hlast]
  exact ⟨List.dropLast_concat, by rw [List.getLast?_concat, hind]⟩

/-- Closed witness for C5 on a one-record series for 2025-09 with
anomaly 1: the forecast row is for 2025-10 with placeholder anomaly 0. -/
theorem c5_forecast_row_semantics_witness :
    (appendForecast [⟨ym 2025 9, some 1, some 1⟩]).dropLast =
      [⟨ym 2025 9, some 1, some 1⟩] ∧
    (appendForecast [⟨ym 2025 9, some 1, some 1⟩]).getLast? =
      some ⟨(([⟨ym 2025 9, some 1, some 1⟩] : List Row).getLast (by simp)).month + 1,
        some 0, some (round2 (listMean (lastN 6 [1])))⟩ :=
  c5_forecast_row_semantics [⟨ym 2025 9, some 1, some 1⟩] [1] rfl (by simp)
    (by norm_num [listMean, lastN, Int.fract])

/-- Counterexample to C5 as stated: with observed anomalies 0.03, 0.03
and 0.04 the trailing-6 mean is 1/30 = 0.0333…, but the forecast
indicator the code stores is round(0.0333…, 2) = 0.03, not 1/30 (the
mean is far from a rounding tie, so the double computes the same). -/
theorem c5_counterexample :
    (appendForecast [⟨0, some (3/100), some (3/100)⟩,
        ⟨1, some (3/100), some (3/100)⟩,
        ⟨2, some (4/100), some (3/100)⟩]).getLast? =
      some ⟨3, some 0, some (3/100)⟩ ∧
    listMean (lastN 6 [(3 : ℚ)/100, 3/100, 4/100]) = 1/30 ∧
    ((3 : ℚ)/100) ≠ 1/30 := by
  refine ⟨?_, ?_, by norm_num⟩
  · simp [appendForecast, lastN, skipnaMean, listMean, round2o, List.reduceOption]
    norm_num
    unfold round2
    norm_num [Int.fract]
  · simp [listMean, lastN]
    norm_num

/-! The rolling-window computation of process_missing_data (claim C1). -/

lemma getElem?_zip_of : ∀ (l1 : List ℕ) (l2 : List ℚ) (k : ℕ) (x : ℕ) (y : ℚ),
    l1[k]? = some x → l2[k]? = some y → (l1.zip l2)[k]? = some (x, y) := by
  intro l1
  induction l1 with
  | nil => intro l2 k x y h1 _; simp at h1
  | cons a t ih =>
    intro l2 k x y h1 h2
    cases l2 with
    | nil => simp at h2
    | cons b t2 =>
      cases k with
      | zero =>
        simp only [List.getElem?_cons_zero, Option.some.injEq] at h1 h2
        simp [List.zip_cons_cons, h1, h2]
      | succ k =>
        simp only [List.getElem?_cons_succ] at h1 h2
        simpa [List.zip_cons_cons] using ih t2 k x y h1 h2

lemma sorted_append_singleton {df : List Row} {r : Row}
    (hs : df.Sorted byMonth) (hlt : ∀ x ∈ df, x.month ≤ r.month) :
    (df ++ [r]).Sorted byMonth := by
  rw [List.Sorted, List.pairwise_append]
  exact ⟨hs, List.pairwise_singleton _ _,
    fun x hx y hy => by rw [List.mem_singleton.mp hy]; exact hlt x hx⟩

lemma round2o_some (x : ℚ) : round2o (some x) = some (round2 x) := rfl

lemma process_eq_chronAux (grids : ℕ → Grid) (remote : List ℕ) :
    ∀ (ps : List (ℕ × ℚ)) (df : List Row) (c : ℕ),
      df.Sorted byMonth →
      (∀ r ∈ df, ∀ p ∈ ps, r.month < p.1) →
      List.Chain' (fun p q : ℕ × ℚ => p.1 < q.1) ps →
      (∀ p ∈ ps, p.1 ∈ remote) →
      (∀ p ∈ ps, gridMeanCode (grids p.1) = some p.2) →
      (ps.map Prod.fst).foldl (processStep grids remote) (df, c) =
        (df ++ chronAux (df.map Row.anom) ps, c + ps.length) := by
  intro ps
  induction ps with
  | nil =>
    intro df c _ _ _ _ _
    simp [chronAux]
  | cons p rest ih =>
    obtain ⟨m, a⟩ := p
    intro df c hsort hbound hchain hrem hg
    have hmem : m ∈ remote := hrem (m, a) (List.mem_cons_self _ _)
    have hga : gridMeanCode (grids m) = some a := hg (m, a) (List.mem_cons_self _ _)
    have hrow : processStep grids remote (df, c) m =
        (df ++ [⟨m, some (round2 a),
          round2o (skipnaMean (lastN 6 (df.map Row.anom ++ [some a])))⟩], c + 1) := by
      have hle : ∀ x ∈ df, x.month ≤
          (⟨m, some (round2 a),
            round2o (skipnaMean (lastN 6 (df.map Row.anom ++ [some a])))⟩ : Row).month :=
        fun x hx => Nat.le_of_lt (hbound x hx (m, a) (List.mem_cons_self _ _))
      simp only [processStep, if_pos hmem, hga, round2o_some]
      rw [sortRows_eq_of_sorted (sorted_append_singleton hsort hle)]
    have hmlt : ∀ p ∈ rest, m < p.1 := by
      have hpw := List.chain'_iff_pairwise.mp hchain
      exact fun q hq => (List.pairwise_cons.mp hpw).1 q hq
    have hrec := ih (df ++ [⟨m, some (round2 a),
        round2o (skipnaMean (lastN 6 (df.map Row.anom ++ [some a])))⟩]) (c + 1)
      (sorted_append_singleton hsort
        (fun x hx => Nat.le_of_lt (hbound x hx (m, a) (List.mem_cons_self _ _))))
      (by
        intro r hr q hq
        rcases List.mem_append.mp hr with h1 | h2
        · exact hbound r h1 q (List.mem_cons_of_mem _ hq)
        · rw [List.mem_singleton.mp h2]
          exact hmlt q hq)
      hchain.tail
      (fun q hq => hrem q (List.mem_cons_of_mem _ hq))
      (fun q hq => hg q (List.mem_cons_of_mem _ hq))
    rw [List.map_cons, List.foldl_cons, hrow, hrec]
    refine Prod.ext ?_ ?_
    · simp only [chronAux, List.map_append, List.map_cons, List.map_nil,
        List.append_assoc, List.singleton_append]
    · simp only [List.length_cons]
      omega

lemma chronAux_getElem :
    ∀ (ps : List (ℕ × ℚ)) (prevQ : List ℚ) (k : ℕ) (m : ℕ) (a : ℚ),
      (∀ p ∈ ps, round2 p.2 = p.2) →
      ps[k]? = some (m, a) →
      (chronAux (prevQ.map some) ps)[k]? =
        some ⟨m, some (round2 a),
          some (round2 (listMean (lastN 6 (prevQ ++ (ps.map Prod.snd).take (k + 1)))))⟩ := by
  intro ps
  induction ps with
  | nil => intro prevQ k m a _ hk; simp at hk
  | cons p rest ih =>
    obtain ⟨m0, a0⟩ := p
    intro prevQ k m a hround hk
    cases k with
    | zero =>
      simp only [List.getElem?_cons_zero, Option.some.injEq, Prod.mk.injEq] at hk
      obtain ⟨hm, ha⟩ := hk
      subst hm
      subst ha
      have hms : prevQ.map some ++ [some a0] = (prevQ ++ [a0]).map some := by simp
      have hne : lastN 6 (prevQ ++ [a0]) ≠ [] :=
        lastN_ne_nil 6 (by omega) _ (by simp)
      simp only [chronAux, List.getElem?_cons_zero, Option.some.injEq]
      rw [hms, lastN_map, skipnaMean_map_some _ hne, round2o_some]
      simp
    | succ k =>
      simp only [List.getElem?_cons_succ] at hk
      have hr0 : round2 a0 = a0 := hround (m0, a0) (List.mem_cons_self _ _)
      have hacc : (prevQ.map some) ++ [some (round2 a0)] = ((prevQ ++ [a0]).map some) := by
        rw [hr0]; simp
      have hrec := ih (prevQ ++ [a0]) k m a
        (fun q hq => hround q (List.mem_cons_of_mem _ hq)) hk
      simp only [chronAux, List.getElem?_cons_succ]
      rw [hacc, hrec, List.map_cons, List.take_succ_cons, List.append_assoc,
        List.singleton_append]

/-- Claim C1 (amended): appending a chronological series of observed
anomalies a1..an (each already at the two-decimal storage precision),
the indicator stored at record k equals the arithmetic mean of
a[max(1, k-5)..k] — the trailing window of up to 6 anomalies ending at
and including record k — rounded to two decimals; in particular month
m+1 is computed from the window that contains the anomaly appended for
month m.  (The rounding of the stored value is what the claim as stated
omits.)  The window mean of record k is required not to sit exactly on
a rounding tie: there the binary double representation, not the
rounding rule, decides the digit the program stores, and the rational
idealisation makes no prediction. -/
theorem c1_rolling_window (grids : ℕ → Grid) (ms : List ℕ) (as : List ℚ)
    (hlen : ms.length = as.length)
    (hchain : List.Chain' (· < ·) ms)
    (hg : ∀ p ∈ ms.zip as, gridMeanCode (grids p.1) = some p.2)
    (hround : ∀ x ∈ as, round2 x = x)
    (k : ℕ) (m : ℕ) (a : ℚ) (hm : ms[k]? = some m) (ha : as[k]? = some a)
    (htie : Int.fract (100 * listMean (lastN 6 (as.take (k + 1)))) ≠ 1 / 2) :
    (process_missing_data grids ms [] ms).1[k]? =
      some ⟨m, some a, some (round2 (listMean (lastN 6 (as.take (k + 1)))))⟩ := by
  have hfst : (ms.zip as).map Prod.fst = ms := List.map_fst_zip ms as (by omega)
  have hsnd : (ms.zip as).map Prod.snd = as := List.map_snd_zip ms as (by omega)
  have hchain2 : List.Chain' (fun p q : ℕ × ℚ => p.1 < q.1) (ms.zip as) := by
    have h2 := hchain
    rw [← hfst] at h2
    exact (List.chain'_map Prod.fst).mp h2
  have hfold := process_eq_chronAux grids ms (ms.zip as) [] 0 List.sorted_nil
    (by intro r hr; cases hr) hchain2
    (fun p hp => hfst ▸ List.mem_map_of_mem Prod.fst hp) hg
  rw [hfst] at hfold
  have hres : (process_missing_data grids ms [] ms).1 = chronAux [] (ms.zip as) := by
    unfold process_missing_data
    rw [hfold]
    simp
  have hzip : (ms.zip as)[k]? = some (m, a) := getElem?_zip_of ms as k m a hm ha
  have hget := chronAux_getElem (ms.zip as) [] k m a
    (fun p hp => by
      have h2 : p.2 ∈ as := by
        have h3 := List.mem_map_of_mem Prod.snd hp
        rwa [hsnd] at h3
      exact hround p.2 h2) hzip
  have hra : round2 a = a := by
    have h2 : a ∈ as := List.mem_iff_getElem?.mpr ⟨k, ha⟩
    exact hround a h2
  rw [hres]
  simp only [List.map_nil] at hget
  rw [hget, hsnd, hra]
  simp

/-- Closed witness for C1 at months [3, 4] with anomalies [3, 4]. -/
theorem c1_rolling_window_witness :
    (process_missing_data (fun m => [[some (m : ℚ)]]) [3, 4] [] [3, 4]).1[1]? =
      some ⟨4, some 4, some (round2 (listMean (lastN 6 ([(3 : ℚ), 4].take 2))))⟩ :=
  c1_rolling_window (fun m => [[some (m : ℚ)]]) [3, 4] [3, 4] rfl
    (by norm_num [List.chain'_cons])
    (by
      intro p hp
      have hz : ([3, 4].zip [(3 : ℚ), 4]) = [(3, (3 : ℚ)), (4, 4)] := rfl
      rw [hz] at hp
      rcases List.mem_cons.mp hp with h | h2
      · subst h; norm_num [gridMeanCode, listMean]
      · rcases List.mem_cons.mp h2 with h | h3
        · subst h; norm_num [gridMeanCode, listMean]
        · cases h3)
    (by
      intro x hx
      rcases List.mem_cons.mp hx with h | h2
      · subst h; norm_num [round2]
      · rcases List.mem_cons.mp h2 with h | h3
        · subst h; norm_num [round2]
        · cases h3)
    1 4 4 rfl rfl (by norm_num [listMean, lastN, Int.fract])

/-- Counterexample to C1 as stated: appending the anomalies 0.02, 0.04
and 0.01 in order, the window mean at record 3 is 7/300 = 0.0233…, but
the indicator the code stores there is round(0.0233…, 2) = 0.02, not
7/300 (the mean is far from a rounding tie, so the double computes the
same). -/
theorem c1_counterexample :
    ((process_missing_data
        (fun m => if m = 1 then [[some ((2 : ℚ) / 100)]]
          else if m = 2 then [[some ((4 : ℚ) / 100)]]
          else [[some ((1 : ℚ) / 100)]])
        [1, 2, 3] [] [1, 2, 3]).1.map
        Row.indicator)[2]? = some (some (2 / 100)) ∧
    listMean (lastN 6 ([(2 : ℚ) / 100, 4 / 100, 1 / 100].take 3)) = 7 / 300 ∧
    ((2 : ℚ) / 100) ≠ 7 / 300 := by
  refine ⟨?_, ?_, by norm_num⟩
  · simp [process_missing_data, processStep, gridMeanCode, skipnaMean, lastN,
      round2o, sortRows, List.insertionSort, List.orderedInsert, byMonth,
      listMean, List.reduceOption]
    norm_num
    unfold round2
    norm_num [Int.fract]
  · simp [listMean, lastN]
    norm_num

/-! Invariants of the process_missing_data fold and the shape of a full
indicator-update run (claims C2, C3, C9). -/

lemma mem_process_foldl (grids : ℕ → Grid) (remote : List ℕ) :
    ∀ (ms : List ℕ) (st : List Row × ℕ) (r : Row),
      r ∈ st.1 → r ∈ (ms.foldl (processStep grids remote) st).1 := by
  intro ms
  induction ms with
  | nil => intro st r hr; exact hr
  | cons m rest ih =>
    intro st r hr
    rw [List.foldl_cons]
    refine ih _ r ?_
    unfold processStep
    by_cases hm : m ∈ remote
    · rw [if_pos hm]
      exact mem_sortRows.mpr (List.mem_append_left _ hr)
    · rw [if_neg hm]
      exact hr

lemma process_foldl_months_le (grids : ℕ → Grid) (remote : List ℕ) (bound : ℕ) :
    ∀ (ms : List ℕ) (st : List Row × ℕ),
      (∀ r ∈ st.1, r.month ≤ bound) → (∀ m ∈ ms, m ≤ bound) →
      ∀ r ∈ (ms.foldl (processStep grids remote) st).1, r.month ≤ bound := by
  intro ms
  induction ms with
  | nil => intro st h1 _ r hr; exact h1 r hr
  | cons m rest ih =>
    intro st h1 h2 r hr
    rw [List.foldl_cons] at hr
    refine ih _ ?_ (fun x hx => h2 x (List.mem_cons_of_mem _ hx)) r hr
    intro x hx
    unfold processStep at hx
    by_cases hm : m ∈ remote
    · rw [if_pos hm] at hx
      rcases List.mem_append.mp (mem_sortRows.mp hx) with ha | hb
      · exact h1 x ha
      · rw [List.mem_singleton.mp hb]
        exact h2 m (List.mem_cons_self _ _)
    · rw [if_neg hm] at hx
      exact h1 x hx

lemma process_foldl_month_mem (grids : ℕ → Grid) (remote : List ℕ) :
    ∀ (ms : List ℕ) (st : List Row × ℕ) (m : ℕ),
      m ∈ ms → m ∈ remote →
      m ∈ ((ms.foldl (processStep grids remote) st).1.map Row.month) := by
  intro ms
  induction ms with
  | nil => intro st m hm _; cases hm
  | cons m0 rest ih =>
    intro st m hm hrem
    rw [List.foldl_cons]
    rcases List.mem_cons.mp hm with h1 | h2
    · subst h1
      have hrow : (⟨m, round2o (gridMeanCode (grids m)),
          round2o (skipnaMean (lastN 6 (st.1.map Row.anom ++ [gridMeanCode (grids m)])))⟩ : Row) ∈
          (processStep grids remote st m).1 := by
        unfold processStep
        rw [if_pos hrem]
        exact mem_sortRows.mpr (List.mem_append_right _ (List.mem_singleton.mpr rfl))
      have hmem := mem_process_foldl grids remote rest _ _ hrow
      exact List.mem_map.mpr ⟨_, hmem, rfl⟩
    · exact ih _ m h2 hrem

lemma process_foldl_sorted (grids : ℕ → Grid) (remote : List ℕ) :
    ∀ (ms : List ℕ) (st : List Row × ℕ),
      st.1.Sorted byMonth → ((ms.foldl (processStep grids remote) st).1).Sorted byMonth := by
  intro ms
  induction ms with
  | nil => intro st h; exact h
  | cons m rest ih =>
    intro st h
    rw [List.foldl_cons]
    refine ih _ ?_
    unfold processStep
    by_cases hm : m ∈ remote
    · rw [if_pos hm]
      exact sortRows_sorted _
    · rw [if_neg hm]
      exact h

lemma mem_get_missing_dates {df : List Row} {remote : List ℕ} {m : ℕ} :
    m ∈ get_missing_dates df remote ↔ m ∈ remote ∧ m ∉ df.map Row.month := by
  unfold get_missing_dates
  rw [(List.perm_insertionSort _ _).mem_iff, List.mem_filter, List.mem_dedup]
  simp

lemma get_missing_dates_nil {df : List Row} {remote : List ℕ}
    (h : ∀ m ∈ remote, m ∈ df.map Row.month) : get_missing_dates df remote = [] := by
  unfold get_missing_dates
  have hf : (remote.dedup).filter (fun m => m ∉ df.map Row.month) = [] := by
    rw [List.filter_eq_nil_iff]
    intro a ha
    simpa using h a (List.mem_dedup.mp ha)
  rw [hf]
  rfl

lemma runStage_structure (grids : ℕ → Grid) (remote : List ℕ) (s : List Row)
    (hne : remote ≠ []) :
    (process_missing_data grids remote
        (sortRows ((sortRows s).filter (fun r => r.month ≤ latestMonth remote)))
        (get_missing_dates (sortRows s) remote)).1.Sorted byMonth ∧
    (process_missing_data grids remote
        (sortRows ((sortRows s).filter (fun r => r.month ≤ latestMonth remote)))
        (get_missing_dates (sortRows s) remote)).1 ≠ [] ∧
    (∀ r ∈ (process_missing_data grids remote
        (sortRows ((sortRows s).filter (fun r => r.month ≤ latestMonth remote)))
        (get_missing_dates (sortRows s) remote)).1, r.month ≤ latestMonth remote) ∧
    (∀ m ∈ remote, m ∈ (process_missing_data grids remote
        (sortRows ((sortRows s).filter (fun r => r.month ≤ latestMonth remote)))
        (get_missing_dates (sortRows s) remote)).1.map Row.month) ∧
    runStage grids remote s =
      (process_missing_data grids remote
        (sortRows ((sortRows s).filter (fun r => r.month ≤ latestMonth remote)))
        (get_missing_dates (sortRows s) remote)).1 ++
      [⟨latestMonth remote + 1, some 0,
        round2o (skipnaMean (lastN 6 ((process_missing_data grids remote
          (sortRows ((sortRows s).filter (fun r => r.month ≤ latestMonth remote)))
          (get_missing_dates (sortRows s) remote)).1.map Row.anom)))⟩] := by
  set latest := latestMonth remote with hlatest
  set df1 := sortRows ((sortRows s).filter (fun r => r.month ≤ latest)) with hdf1
  set missing := get_missing_dates (sortRows s) remote with hmissing
  set df2 := (process_missing_data grids remote df1 missing).1 with hdf2
  have hsorted : df2.Sorted byMonth :=
    process_foldl_sorted grids remote missing (df1, 0) (sortRows_sorted _)
  have hle : ∀ r ∈ df2, r.month ≤ latest := by
    refine process_foldl_months_le grids remote latest missing (df1, 0) ?_ ?_
    · intro r hr
      have := List.mem_filter.mp (mem_sortRows.mp hr)
      simpa using this.2
    · intro m hm
      exact le_latestMonth remote m (mem_get_missing_dates.mp hm).1
  have hsup : ∀ m ∈ remote, m ∈ df2.map Row.month := by
    intro m hm
    by_cases hloc : m ∈ (sortRows s).map Row.month
    · obtain ⟨r, hr, hrm⟩ := List.mem_map.mp hloc
      have hrf : r ∈ df1 := by
        rw [hdf1]
        refine mem_sortRows.mpr (List.mem_filter.mpr ⟨hr, ?_⟩)
        simp [hrm, le_latestMonth remote m hm]
      have := mem_process_foldl grids remote missing (df1, 0) r hrf
      exact List.mem_map.mpr ⟨r, this, hrm⟩
    · have hmm : m ∈ missing := mem_get_missing_dates.mpr ⟨hm, hloc⟩
      exact process_foldl_month_mem grids remote missing (df1, 0) m hmm hm
  have hne2 : df2 ≠ [] := by
    intro hcon
    have := hsup latest (latestMonth_mem remote hne)
    rw [hcon] at this
    cases this
  have hgl : (df2.getLast hne2).month = latest := by
    have h1 : (df2.getLast hne2).month ≤ latest := hle _ (List.getLast_mem hne2)
    obtain ⟨r, hr, hrm⟩ := List.mem_map.mp (hsup latest (latestMonth_mem remote hne))
    have h2 : r.month ≤ (df2.getLast hne2).month :=
      sorted_getLast_max hsorted hne2 r hr
    omega
  have hfc : appendForecast df2 = df2 ++
      [⟨latest + 1, some 0, round2o (skipnaMean (lastN 6 (df2.map Row.anom)))⟩] := by
    unfold appendForecast
    rw [List.getLast?_eq_getLast df2 hne2]
    dsimp only
    rw [hgl]
  have hsortfc : (df2 ++
      [(⟨latest + 1, some 0,
        round2o (skipnaMean (lastN 6 (df2.map Row.anom)))⟩ : Row)]).Sorted byMonth := by
    refine sorted_append_singleton hsorted ?_
    intro x hx
    have hxle := hle x hx
    show x.month ≤ latest + 1
    omega
  refine ⟨hsorted, hne2, hle, hsup, ?_⟩
  show (runStageCount grids remote s).1 = _
  unfold runStageCount
  simp only [← hlatest, ← hdf1, ← hmissing, ← hdf2]
  rw [hfc, sortRows_eq_of_sorted hsortfc]

/-- Claim C9: once the seed file exists, an indicator-update run only
appends: every observed record of the loaded series (month at most the
newest remote month) is still present in the saved series with month,
anomaly and indicator unchanged — records are never deleted or edited,
only appended-to and resorted.  (Rows beyond the newest remote month are
exactly the forecast rows, which the run replaces.) -/
theorem c9_series_frame (grids : ℕ → Grid) (remote : List ℕ) (s : List Row) (r : Row)
    (hne : remote ≠ []) (hr : r ∈ s) (hle : r.month ≤ latestMonth remote) :
    r ∈ runStage grids remote s := by
  obtain ⟨_, _, _, _, hrun⟩ := runStage_structure grids remote s hne
  rw [hrun]
  refine List.mem_append_left _ ?_
  refine mem_process_foldl grids remote _ _ r ?_
  exact mem_sortRows.mpr
    (List.mem_filter.mpr ⟨mem_sortRows.mpr hr, by simpa using hle⟩)

/-- Closed witness for C9: the observed 2025-09-style record survives a
run unchanged. -/
theorem c9_series_frame_witness :
    (⟨3, some 1, some 1⟩ : Row) ∈
      runStage (fun _ => []) [3] [⟨3, some 1, some 1⟩] :=
  c9_series_frame (fun _ => []) [3] [⟨3, some 1, some 1⟩] ⟨3, some 1, some 1⟩
    (by decide) (List.mem_singleton.mpr rfl) (by decide)

/-- Claim C3: when every remote month is already persisted locally (the
observed data is current, so the local observed latest month equals the
remote latest month) but no valid forecast row is present, the
orchestrator still invokes the indicator-update stage
(needs_observed_update is false, missing_forecast fires), and that run
reads zero sstAnom grids — it re-fetches no remote anomaly data — and
changes the series only by appending the single forecast row for the
month after the remote latest month. -/
theorem c3_forecast_missing_path (grids : ℕ → Grid) (remote : List ℕ) (s : List Row)
    (hne : remote ≠ [])
    (hcur : ∀ m ∈ remote, m ∈ s.map Row.month)
    (hobs : ∀ r ∈ s, r.month ≤ latestMonth remote) :
    get_latest_indicator_date (some s) (latestMonth remote) = latestMonth remote ∧
    invoke_indicator_stage (get_latest_indicator_date (some s) (latestMonth remote))
      (latestMonth remote) false = true ∧
    (runStageCount grids remote s).2 = 0 ∧
    runStage grids remote s =
      sortRows s ++ [⟨latestMonth remote + 1, some 0,
        round2o (skipnaMean (lastN 6 ((sortRows s).map Row.anom)))⟩] := by
  set L := latestMonth remote with hL
  have hsne : s ≠ [] := by
    intro hcon
    have := hcur L (latestMonth_mem remote hne)
    rw [hcon] at this
    cases this
  have hsrtne : sortRows s ≠ [] := by
    intro hcon
    have hp := sortRows_perm s
    rw [hcon] at hp
    exact hsne hp.nil_eq.symm
  have hfilS : s.filter (fun r => decide (r.month ≤ L)) = s :=
    List.filter_eq_self.mpr (fun r hr => by simpa using hobs r hr)
  have hfilSrt : (sortRows s).filter (fun r => decide (r.month ≤ L)) = sortRows s :=
    List.filter_eq_self.mpr (fun r hr => by simpa using hobs r (mem_sortRows.mp hr))
  have hmiss0 : get_missing_dates (sortRows s) remote = [] :=
    get_missing_dates_nil (fun m hm => month_mem_sortRows.mpr (hcur m hm))
  have hlatest : get_latest_indicator_date (some s) L = L := by
    unfold get_latest_indicator_date observedRows
    dsimp only
    rw [hfilS, List.getLast?_eq_getLast _ hsrtne]
    dsimp only
    have h1 : ((sortRows s).getLast hsrtne).month ≤ L :=
      hobs _ (mem_sortRows.mp (List.getLast_mem hsrtne))
    obtain ⟨r, hr, hrm⟩ := List.mem_map.mp (hcur L (latestMonth_mem remote hne))
    have h2 : r.month ≤ ((sortRows s).getLast hsrtne).month :=
      sorted_getLast_max (sortRows_sorted s) hsrtne r (mem_sortRows.mpr hr)
    omega
  have hdf2eq : (process_missing_data grids remote
      (sortRows ((sortRows s).filter (fun r => r.month ≤ L)))
      (get_missing_dates (sortRows s) remote)).1 = sortRows s := by
    rw [hmiss0, hfilSrt, sortRows_eq_of_sorted (sortRows_sorted s)]
    rfl
  refine ⟨hlatest, ?_, ?_, ?_⟩
  · rw [hlatest]
    simp [invoke_indicator_stage, needs_observed_update]
  · show (runStageCount grids remote s).2 = 0
    unfold runStageCount
    simp only [← hL, hmiss0]
    rfl
  · obtain ⟨_, _, _, _, hrun⟩ := runStage_structure grids remote s hne
    rw [← hL] at hrun
    rw [hrun, hdf2eq]

/-- Closed witness for C3: remote months [5], local series already
holding month 5 and no forecast row. -/
theorem c3_forecast_missing_path_witness :
    get_latest_indicator_date (some [⟨5, some 0, some 0⟩]) (latestMonth [5]) =
      latestMonth [5] ∧
    invoke_indicator_stage
      (get_latest_indicator_date (some [⟨5, some 0, some 0⟩]) (latestMonth [5]))
      (latestMonth [5]) false = true ∧
    (runStageCount (fun _ => []) [5] [⟨5, some 0, some 0⟩]).2 = 0 ∧
    runStage (fun _ => []) [5] [⟨5, some 0, some 0⟩] =
      sortRows [⟨5, some 0, some 0⟩] ++ [⟨latestMonth [5] + 1, some 0,
        round2o (skipnaMean (lastN 6 ((sortRows [⟨5, some 0, some 0⟩]).map Row.anom)))⟩] :=
  c3_forecast_missing_path (fun _ => []) [5] [⟨5, some 0, some 0⟩]
    (by decide) (by decide) (by decide)

/-- Claim C2: with a fixed remote month axis, running the
indicator-update stage (load, append missing observed months, append
forecast, save) a second time reproduces the saved series exactly, and
the saved series contains exactly one forecast row (one row beyond the
newest remote month): the previous forecast row is replaced, never
duplicated. -/
theorem c2_forecast_idempotent (grids : ℕ → Grid) (remote : List ℕ) (s : List Row)
    (hne : remote ≠ []) :
    runStage grids remote (runStage grids remote s) = runStage grids remote s ∧
    ((runStage grids remote s).filter
      (fun r => latestMonth remote < r.month)).length = 1 := by
  obtain ⟨hsorted, hne2, hle, hsup, hrun⟩ := runStage_structure grids remote s hne
  set L := latestMonth remote with hL
  set df2 := (process_missing_data grids remote
      (sortRows ((sortRows s).filter (fun r => r.month ≤ L)))
      (get_missing_dates (sortRows s) remote)).1 with hdf2
  set fc : Row := ⟨L + 1, some 0,
      round2o (skipnaMean (lastN 6 (df2.map Row.anom)))⟩ with hfc
  have hrun1 : runStage grids remote s = df2 ++ [fc] := hrun
  have hsorted_t : (df2 ++ [fc]).Sorted byMonth := by
    refine sorted_append_singleton hsorted ?_
    intro x hx
    have := hle x hx
    show x.month ≤ L + 1
    omega
  have hfil2 : df2.filter (fun r => decide (r.month ≤ L)) = df2 :=
    List.filter_eq_self.mpr (fun r hr => by simpa using hle r hr)
  have hfilnil : df2.filter (fun r => decide (L < r.month)) = [] := by
    rw [List.filter_eq_nil_iff]
    intro r hr
    have := hle r hr
    simp
    omega
  constructor
  · obtain ⟨_, _, _, _, hrun2⟩ := runStage_structure grids remote (df2 ++ [fc]) hne
    rw [← hL] at hrun2
    have hsrt_t : sortRows (df2 ++ [fc]) = df2 ++ [fc] :=
      sortRows_eq_of_sorted hsorted_t
    have hmiss_t : get_missing_dates (sortRows (df2 ++ [fc])) remote = [] := by
      rw [hsrt_t]
      refine get_missing_dates_nil ?_
      intro m hm
      rw [List.map_append]
      exact List.mem_append_left _ (hsup m hm)
    have hfil_t : (df2 ++ [fc]).filter (fun r => decide (r.month ≤ L)) = df2 := by
      rw [List.filter_append, hfil2]
      have : [fc].filter (fun r => decide (r.month ≤ L)) = [] := by
        simp [List.filter]
      rw [this, List.append_nil]
    have hX : (process_missing_data grids remote
        (sortRows ((sortRows (df2 ++ [fc])).filter (fun r => r.month ≤ L)))
        (get_missing_dates (sortRows (df2 ++ [fc])) remote)).1 = df2 := by
      rw [hmiss_t, hsrt_t, hfil_t, sortRows_eq_of_sorted hsorted]
      rfl
    rw [hrun1, hrun2, hX, ← hfc, ← hrun1, hrun1]
  · rw [hrun1, List.filter_append, hfilnil, List.nil_append]
    have : [fc].filter (fun r => decide (L < r.month)) = [fc] := by
      simp [List.filter]
    rw [this]
    rfl

/-- Closed witness for C2 on the empty seed series with one remote
month. -/
theorem c2_forecast_idempotent_witness :
    runStage (fun _ => [[some 1]]) [2] (runStage (fun _ => [[some 1]]) [2] []) =
      runStage (fun _ => [[some 1]]) [2] [] ∧
    ((runStage (fun _ => [[some 1]]) [2] []).filter
      (fun r => latestMonth [2] < r.month)).length = 1 :=
  c2_forecast_idempotent (fun _ => [[some 1]]) [2] [] (by decide)
